import Mathlib

/-!
Shallow embedding of the retrieval core of the Medical-AI repository
(`rag_system.py`): the medication record model, record-store loading,
embedding generation and similarity search of `MedicationRAG`, the context
assembler, and the lexical index of `MedicationSearchEngine`.

Modelling conventions:
* Python strings are Lean `String`s; operations work on `String.data`
  (`List Char`), so Python `len` corresponds to `String.length`
  (both count codepoints).
* Embedding vectors are `List Int` (exact scores instead of IEEE floats;
  every claim below concerns ranking/length/control-flow structure, which is
  independent of the score field).  `np.argsort` (ascending) is modelled as a
  stable ascending argsort; numpy's default sort coincides with stable
  insertion sort on the small arrays used in all concrete instances.
* The OpenAI embedding call is abstracted by its outcome: an
  `Option (List Int)` query embedding (`none` models a raised exception,
  which the source catches), and for batch generation a provider function
  `List String → Option (List (List Int))`.
* Regex whitespace `\s` is modelled by the four common whitespace
  characters; `\d` and case folding are modelled on ASCII.  The source file
  stores its French text double-encoded, so the literal characters of the
  Python strings are "Ã©" (U+00C3 U+00A9) where "é" was intended; the model
  reproduces those exact codepoints.
-/

/-- Whitespace class used to model the regex class `\s` and Python
whitespace splitting/stripping. -/
def isWS (c : Char) : Bool :=
  c = ' ' || c = '\n' || c = '\t' || c = '\r'

/-- Does the first list start with the second (contiguously, from its head)? -/
def startsWithList : List Char → List Char → Bool
  | _, [] => true
  | [], _ :: _ => false
  | a :: as, b :: bs => a = b && startsWithList as bs

/-- Substring containment on char lists; models Python `pat in hay`. -/
def containsSub : List Char → List Char → Bool
  | [], pat => pat.isEmpty
  | c :: t, pat => startsWithList (c :: t) pat || containsSub t pat

/-- Characters of `l` before the first occurrence of `pat` (all of `l` if
`pat` does not occur).  Models `re.sub(pat ++ ".*", "", l, flags=DOTALL)`
for a literal marker `pat`. -/
def takeUntilSub : List Char → List Char → List Char
  | [], _ => []
  | c :: t, pat => if startsWithList (c :: t) pat then [] else c :: takeUntilSub t pat

/-- Worker for `replaceSub`: the `Nat` argument counts characters still to be
skipped after a match was replaced (a match consumes `pat.length` characters:
one via the list step plus `pat.length - 1` skips). -/
def replaceGo (pat rep : List Char) : List Char → Nat → List Char
  | [], _ => []
  | _ :: t, skip + 1 => replaceGo pat rep t skip
  | c :: t, 0 =>
    if pat ≠ [] && startsWithList (c :: t) pat then
      rep ++ replaceGo pat rep t (pat.length - 1)
    else c :: replaceGo pat rep t 0

/-- Left-to-right non-overlapping replacement of every occurrence of `pat`
by `rep`; models Python `str.replace`. -/
def replaceSub (hay pat rep : List Char) : List Char :=
  replaceGo pat rep hay 0

/-- Collapse every maximal whitespace run to a single space; models
`re.sub(r"\s+", " ", text)`. -/
def collapseWS : List Char → List Char
  | [] => []
  | [c] => if isWS c then [' '] else [c]
  | c :: d :: t =>
    if isWS c && isWS d then collapseWS (d :: t)
    else (if isWS c then ' ' else c) :: collapseWS (d :: t)

/-- Strip leading and trailing whitespace from a char list. -/
def stripList (l : List Char) : List Char :=
  ((l.dropWhile isWS).reverse.dropWhile isWS).reverse

/-- Model of Python `str.strip()`. -/
def pyStrip (s : String) : String := String.mk (stripList s.data)

/-- Model of Python `str.lower()` (ASCII case folding). -/
def pyLower (s : String) : String := String.mk (s.data.map Char.toLower)

/-- Worker for whitespace splitting, accumulating the current word reversed. -/
def splitWSGo : List Char → List Char → List (List Char)
  | [], acc => if acc = [] then [] else [acc.reverse]
  | c :: t, acc =>
    if isWS c then
      if acc = [] then splitWSGo t [] else acc.reverse :: splitWSGo t []
    else splitWSGo t (c :: acc)

/-- Model of Python `str.split()` with no argument: split on whitespace runs,
dropping empty pieces. -/
def pySplit (s : String) : List String :=
  (splitWSGo s.data []).map String.mk

/-- Worker for `digitRuns`, accumulating the current digit run reversed. -/
def digitRunsGo : List Char → List Char → List (List Char)
  | [], acc => if acc = [] then [] else [acc.reverse]
  | c :: t, acc =>
    if c.isDigit then digitRunsGo t (c :: acc)
    else if acc = [] then digitRunsGo t [] else acc.reverse :: digitRunsGo t []

/-- Maximal runs of consecutive digits of a char list, in order. -/
def digitRuns (l : List Char) : List (List Char) := digitRunsGo l []

/-- Model of `re.search(r"(\d{8})", query)`: the leftmost window of eight
consecutive digits, scanning positions left to right. -/
def firstDigitWindow : List Char → Option (List Char)
  | [] => none
  | c :: t =>
    let w := (c :: t).take 8
    if w.length = 8 && w.all Char.isDigit then some w
    else firstDigitWindow t

/-- Model of Python `texts[i:i+bs]` chunking via `range(0, len, bs)`, with
explicit fuel (the list length bounds the number of chunks when `bs ≥ 1`). -/
def chunksFuel (bs : Nat) : Nat → List α → List (List α)
  | _, [] => []
  | 0, _ :: _ => []
  | f + 1, c :: t => (c :: t).take bs :: chunksFuel bs f ((c :: t).drop bs)

/-- Chunk a list into consecutive pieces of size `bs`.  For `bs = 0` Python's
`range(0, n, 0)` raises `ValueError`; that case is excluded at the call site
(`generate_embeddings` returns `none` for it). -/
def chunks (bs : Nat) (l : List α) : List (List α) :=
  if bs = 0 then [] else chunksFuel bs l.length l

/-- Dot product of two integer vectors; models `np.dot` row-by-row (callers
check dimensions first, as numpy raises on mismatch). -/
def dot : List Int → List Int → Int
  | a :: as, b :: bs => a * b + dot as bs
  | _, _ => 0

/-- Insert index `i` into a score-ascending index list, after all entries of
score ≤ its own (the stable position for an element arriving after them). -/
def sortedInsert (score : Nat → Int) (i : Nat) : List Nat → List Nat
  | [] => [i]
  | j :: rest =>
    if score i < score j then i :: j :: rest else j :: sortedInsert score i rest

/-- Stable ascending argsort of a score list; models `np.argsort(similarities)`. -/
def argsortAsc (scores : List Int) : List Nat :=
  (List.range scores.length).foldl
    (fun acc i => sortedInsert (fun k => scores.getD k 0) i acc) []

/-- Model of the Python slice `l[-k:]`: for `k = 0` this is `l[0:]`, the whole
list (the `-0` quirk); otherwise the last `min k l.length` elements. -/
def lastSlice (k : Nat) (l : List α) : List α :=
  if k = 0 then l else l.drop (l.length - k)

/-- Model of Python `sep.join(parts)`. -/
def pyJoin (sep : String) : List String → String
  | [] => ""
  | [x] => x
  | x :: y :: t => x ++ sep ++ pyJoin sep (y :: t)

/-- Worker for first-occurrence deduplication. -/
def dedupGo : List String → List String → List String
  | [], _ => []
  | x :: t, seen =>
    if seen.contains x then dedupGo t seen else x :: dedupGo t (x :: seen)

/-- Deduplicate keeping first occurrences; models `list(set(keywords))` (the
set's iteration order is unspecified in Python and never observable through
`quick_lookup`, so a deterministic order is fixed here). -/
def dedupFirst (l : List String) : List String := dedupGo l []

/-- One entry of a record's `components` list: a JSON object with the three
documented keys, each possibly absent (`data.get` semantics). -/
structure Component where
  dosage : Option String
  refDosage : Option String
  nature : Option String
  deriving Repr, DecidableEq

/-- Python truthiness of `comp.get(key)`: `None` and the empty string are
falsy. -/
def truthyStr (o : Option String) : Bool := o.getD "" ≠ ""

/-- The `MedicationRecord` dataclass of `rag_system.py`. -/
structure MedicationRecord where
  cis : String
  name : String
  pharma_form : String
  admin_route : String
  status : String
  components : List Component
  rcp_text : String
  notice_text : String
  deriving Repr, DecidableEq, Inhabited

/-- Model of `MedicationRecord._clean_text` on char lists: unescape literal
newline/tab sequences, collapse whitespace runs, truncate at the navigation
markers (a `re.sub` of `marker.*` with DOTALL deletes from the first
occurrence of the marker to the end), then strip. -/
def cleanTextList (l : List Char) : List Char :=
  if l = [] then [] else
  let l1 := replaceSub l "\\n".data "\n".data
  let l2 := replaceSub l1 "\\t".data " ".data
  let l3 := collapseWS l2
  let l4 := takeUntilSub l3 "Retour en haut de la page".data
  let l5 := takeUntilSub l4 "Plan du site|".data
  stripList l5

/-- Model of `MedicationRecord._clean_text`. -/
def cleanText (s : String) : String := String.mk (cleanTextList s.data)

/-- First `n` characters of a string; models Python `s[:n]`. -/
def strTake (s : String) (n : Nat) : String := String.mk (s.data.take n)

/-- The per-component piece of the searchable/context composition text:
`f"{comp.get('dosage', '')} {comp.get('refDosage', '')}"`. -/
def componentPiece (c : Component) : String :=
  c.dosage.getD "" ++ " " ++ c.refDosage.getD ""

/-- Model of `MedicationRecord.to_searchable_text` (the triple-quoted
f-string keeps its 8-space indentation; the outer `.strip()` removes only the
leading and trailing whitespace). -/
def toSearchableText (m : MedicationRecord) : String :=
  let componentsText := pyJoin " " (m.components.map componentPiece)
  let rcpClean := cleanText m.rcp_text
  let noticeClean := cleanText m.notice_text
  pyStrip ("\n        CIS: " ++ m.cis ++
    "\n        Nom: " ++ m.name ++
    "\n        Forme: " ++ m.pharma_form ++
    "\n        Administration: " ++ m.admin_route ++
    "\n        Statut: " ++ m.status ++
    "\n        Composition: " ++ componentsText ++
    "\n        \n        R\u00c3\u00a9sum\u00c3\u00a9 des caract\u00c3\u00a9ristiques:\n        " ++
    strTake rcpClean 2000 ++
    "\n        \n        Notice patient:\n        " ++
    strTake noticeClean 1000 ++
    "\n        ")

/-- Attempt to match the section-header part of the key-section regexes
(`num` literal, then `\s*`, then the title case-insensitively, then `\s*`)
at the head of `l`; on success return the text after the header.  The title
is supplied pre-folded to lowercase (ASCII folding; the non-ASCII bytes of
the double-encoded source titles have no case variants in the corpus). -/
def matchHeaderAt (l num title : List Char) : Option (List Char) :=
  if startsWithList l num then
    let r1 := (l.drop num.length).dropWhile isWS
    if startsWithList (r1.map Char.toLower) title then
      some ((r1.drop title.length).dropWhile isWS)
    else none
  else none

/-- Model of `re.search(num ++ "\s*" ++ title ++ "\s*(.*?)(?=" ++ nextNum ++
"|$)", text, DOTALL | IGNORECASE)`: leftmost header match, lazy capture up to
the next numbered heading or end of text. -/
def findSection : List Char → List Char → List Char → List Char → Option (List Char)
  | [], _, _, _ => none
  | c :: t, num, title, nextNum =>
    match matchHeaderAt (c :: t) num title with
    | some rest => some (takeUntilSub rest nextNum)
    | none => findSection t num title nextNum

/-- Model of `MedicationRAG._extract_key_sections`: three anchored section
extractions (capped at 300/300/200 characters after stripping), joined by
newlines, the join capped at `maxLength` (default 800 at the call site). -/
def extractKeySections (rcpText : String) (maxLength : Nat) : String :=
  if rcpText = "" then "" else
  let text := replaceSub rcpText.data "\\n".data "\n".data
  let sec1 := (findSection text "4.1.".data
      "indications th\u00c3\u00a9rapeutiques".data "4.2.".data).map
    (fun c => "Indications: " ++ String.mk ((stripList c).take 300))
  let sec2 := (findSection text "4.2.".data
      "posologie et mode d\x27administration".data "4.3.".data).map
    (fun c => "Posologie: " ++ String.mk ((stripList c).take 300))
  let sec3 := (findSection text "4.3.".data
      "contre-indications".data "4.4.".data).map
    (fun c => "Contre-indications: " ++ String.mk ((stripList c).take 200))
  let result := pyJoin "\n" ([sec1, sec2, sec3].filterMap id)
  if result.length > maxLength then String.mk (result.data.take maxLength) else result

/-- One line of the record store, by parse outcome.  `malformed` models the
`json.JSONDecodeError` branch, `badObject` the generic `Exception` branch
(e.g. a JSON value that is not an object); `parsed` carries the object's
known fields, each `none` when the key is absent (`data.get` semantics;
JSON `null` and mistyped field values are outside this model's scope). -/
structure RawMed where
  cis : Option String
  name : Option String
  pharmaForm : Option String
  adminRoute : Option String
  status : Option String
  components : Option (List Component)
  rcpText : Option String
  noticeText : Option String
  deriving Repr, DecidableEq

inductive LineParse where
  | malformed : LineParse
  | badObject : LineParse
  | parsed : RawMed → LineParse
  deriving Repr, DecidableEq

/-- Record construction from a parsed line: every absent field defaults to
the empty string (empty list for `components`), as in
`MedicationRecord(cis=data.get('cis', ''), ...)`. -/
def mkRecord (r : RawMed) : MedicationRecord where
  cis := r.cis.getD ""
  name := r.name.getD ""
  pharma_form := r.pharmaForm.getD ""
  admin_route := r.adminRoute.getD ""
  status := r.status.getD ""
  components := r.components.getD []
  rcp_text := r.rcpText.getD ""
  notice_text := r.noticeText.getD ""

/-- The record produced by one input line, if any. -/
def lineRecord? : LineParse → Option MedicationRecord
  | LineParse.parsed r => some (mkRecord r)
  | _ => none

/-- Model of `MedicationRAG._load_medication_database`: each line is handled
independently inside its own try/except, failing lines are skipped (logged in
the source), successful lines append their record in input order. -/
def loadDatabase (lines : List LineParse) : List MedicationRecord :=
  lines.filterMap lineRecord?

/-- The mutable state of a `MedicationRAG` instance that the modelled methods
read and write: the loaded records, the in-memory embedding matrix
(`None` before any successful build/load), the matrix persisted in the `.npy`
store, and whether the OpenAI client was initialized. -/
structure RagState where
  medications : List MedicationRecord
  embeddings : Option (List (List Int))
  savedEmbeddings : Option (List (List Int))
  hasClient : Bool
  deriving Repr, DecidableEq

/-- Outcome of processing the batch list in `generate_embeddings`: the first
failing provider call aborts with `none`; otherwise all batch results are
concatenated in order. -/
def runBatches (provider : List String → Option (List (List Int))) :
    List (List String) → Option (List (List Int))
  | [] => some []
  | b :: rest =>
    match provider b with
    | none => none
    | some embs =>
      match runBatches provider rest with
      | none => none
      | some more => some (embs ++ more)

/-- Model of `MedicationRAG.generate_embeddings`.  Returns `none` for
`batch_size = 0` (Python's `range(0, n, 0)` raises an uncaught `ValueError`);
otherwise `some (ok, s')` mirrors the boolean result and the state after the
call: on any batch failure the method returns `False` before assigning
`self.embeddings` or calling `np.save`, so the state is unchanged. -/
def generate_embeddings (s : RagState)
    (provider : List String → Option (List (List Int))) (batch_size : Nat) :
    Option (Bool × RagState) :=
  if batch_size = 0 then none
  else if !s.hasClient then some (false, s)
  else
    let texts := s.medications.map toSearchableText
    match runBatches provider (chunks batch_size texts) with
    | none => some (false, s)
    | some embs =>
      some (true, { s with embeddings := some embs, savedEmbeddings := some embs })

/-- The index sequence `np.argsort(similarities)[-top_k:][::-1]`. -/
def topIndices (sims : List Int) (top_k : Nat) : List Nat :=
  (lastSlice top_k (argsortAsc sims)).reverse

/-- Model of `MedicationRAG.search_medications`.  `queryEmbedding` is the
outcome of the per-query embedding call (`none` models a raised provider
exception, caught by the source's try/except).  The final guard models the
`IndexError` raised by `self.medications[idx]` when a top index falls outside
the record list: the exception is caught and an empty list returned. -/
def searchMedications (s : RagState) (queryEmbedding : Option (List Int))
    (top_k : Nat) : List (MedicationRecord × Int) :=
  match s.embeddings with
  | none => []
  | some matrix =>
    if !s.hasClient then []
    else
      match queryEmbedding with
      | none => []
      | some qv =>
        if matrix.all (fun row => row.length = qv.length) then
          let sims := matrix.map (fun row => dot row qv)
          let idxs := topIndices sims top_k
          if idxs.all (fun i => i < s.medications.length) then
            idxs.map (fun i => (s.medications.getD i default, sims.getD i 0))
          else []
        else []

/-- Rendering of `f"{similarity:.3f}"` for the model's integer-valued
scores: fixed three decimal places, so an integral score `s` renders as the
digits of `s` followed by `".000"` (e.g. `1.000`, `-2.000`), exactly as
Python renders the corresponding float.  The rendered width matters: the
assembly loop's length check counts these characters. -/
def formatScore (x : Int) : String := toString x ++ ".000"

/-- The composition line of a context entry: components with a truthy
`dosage`, joined by commas. -/
def contextComponentsText (m : MedicationRecord) : String :=
  pyJoin ", " ((m.components.filter (fun c => truthyStr c.dosage)).map componentPiece)

/-- The context entry f-string of `get_context_for_query` before the optional
key-sections extract is appended. -/
def baseEntry (m : MedicationRecord) (sim : Int) : String :=
  "\nM\u00c3\u00a9dicament: " ++ m.name ++
  "\nCIS: " ++ m.cis ++
  "\nForme: " ++ m.pharma_form ++
  "\nAdministration: " ++ m.admin_route ++
  "\nStatut: " ++ m.status ++
  "\nComposition: " ++ contextComponentsText m ++
  "\nPertinence: " ++ formatScore sim ++ "\n"

/-- The header wrapping of the optional key-sections extract. -/
def sectionsHeader : String := "\nInformations cl\u00c3\u00a9s:\n"

/-- The context entry after the optional key-sections extract has been
appended (`context_entry += f"\nInformations clÃ©s:\n{rcp_sections}\n"`,
executed only when the extract is truthy). -/
def fullEntry (m : MedicationRecord) (sim : Int) : String :=
  if extractKeySections m.rcp_text 800 ≠ "" then
    baseEntry m sim ++ sectionsHeader ++ extractKeySections m.rcp_text 800 ++ "\n"
  else baseEntry m sim

/-- The assembly loop of `get_context_for_query`: while the accumulated
length plus the base entry stays strictly under the cap, the key-sections
extract is appended to the entry (after the check), the grown entry is
stripped and collected, and the accumulator advances by the grown entry's
length; the first overflow stops the loop. -/
def assembleLoop (maxLen : Nat) : List (MedicationRecord × Int) → Nat → List String
  | [], _ => []
  | (m, sim) :: rest, curLen =>
    if curLen + (baseEntry m sim).length < maxLen then
      pyStrip (fullEntry m sim) ::
        assembleLoop maxLen rest (curLen + (fullEntry m sim).length)
    else []

/-- The fixed fallback sentence returned when no relevant medication is
found (exact codepoints of the double-encoded source literal). -/
def fallbackSentence : String :=
  "Aucune information pertinente trouv\u00c3\u00a9e dans la base de donn\u00c3\u00a9es."

/-- Model of `MedicationRAG.get_context_for_query`: similarity search with
`top_k = 3`, the fallback sentence when it returns nothing, otherwise the
assembled entries joined by blank lines. -/
def get_context_for_query (s : RagState) (queryEmbedding : Option (List Int))
    (max_context_length : Nat) : String :=
  let relevant := searchMedications s queryEmbedding 3
  if relevant.isEmpty then fallbackSentence
  else pyJoin "\n\n" (assembleLoop max_context_length relevant 0)

/-- Python-dict assignment `d[k] = v` for a string-keyed dict modelled as an
insertion-ordered association list: overwrite in place, else append. -/
def dictSet (d : List (String × Nat)) (k : String) (v : Nat) : List (String × Nat) :=
  if d.any (fun p => p.1 = k) then d.map (fun p => if p.1 = k then (k, v) else p)
  else d ++ [(k, v)]

/-- Python-dict lookup `d.get(k)` / `k in d` for the association list. -/
def dictGet? (d : List (String × Nat)) (k : String) : Option Nat :=
  (d.find? (fun p => p.1 = k)).map (fun p => p.2)

/-- The `if key not in d: d[key] = []` then `d[key].append(i)` idiom of the
index builder, on an insertion-ordered list-valued dict. -/
def dictAppend (d : List (String × List Nat)) (k : String) (v : Nat) :
    List (String × List Nat) :=
  if d.any (fun p => p.1 = k) then
    d.map (fun p => if p.1 = k then (p.1, p.2 ++ [v]) else p)
  else d ++ [(k, [v])]

/-- Lookup in a list-valued dict. -/
def dictGetL? (d : List (String × List Nat)) (k : String) : Option (List Nat) :=
  (d.find? (fun p => p.1 = k)).map (fun p => p.2)

/-- The stop-word set of `_extract_keywords` (exact source codepoints). -/
def stopWords : List String :=
  ["pour", "avec", "sans", "dans", "sous", "forme",
   "comprim\u00c3\u00a9", "g\u00c3\u00a9lule"]

/-- Model of `MedicationSearchEngine._extract_keywords`: tokens of the
lowered name and of each truthy component dosage, keeping tokens of length
greater than 3, dropping stop words, deduplicated. -/
def extractKeywords (m : MedicationRecord) : List String :=
  let nameWords := (pySplit (pyLower m.name)).filter (fun w => w.length > 3)
  let compWords :=
    (m.components.filterMap (fun c =>
      if truthyStr c.dosage then
        some ((pySplit (pyLower (c.dosage.getD ""))).filter (fun w => w.length > 3))
      else none)).flatten
  dedupFirst ((nameWords ++ compWords).filter (fun w => !stopWords.contains w))

/-- The five mappings of `MedicationSearchEngine._build_search_index`. -/
structure SearchIndex where
  cisToMed : List (String × Nat)
  nameToMed : List (String × Nat)
  componentToMeds : List (String × List Nat)
  formToMeds : List (String × List Nat)
  keywords : List (String × List Nat)
  deriving Repr

/-- One iteration of the index-building loop, for record `med` at ordinal
`i`. -/
def indexStep (acc : SearchIndex) (i : Nat) (med : MedicationRecord) : SearchIndex :=
  let acc1 := { acc with cisToMed := dictSet acc.cisToMed med.cis i }
  let nameClean := pyStrip (pyLower med.name)
  let acc2 := { acc1 with nameToMed := dictSet acc1.nameToMed nameClean i }
  let compDict := med.components.foldl
    (fun d c => if truthyStr c.dosage then dictAppend d (pyLower (c.dosage.getD "")) i else d)
    acc2.componentToMeds
  let acc3 := { acc2 with componentToMeds := compDict }
  let acc4 :=
    if med.pharma_form ≠ "" then
      { acc3 with formToMeds := dictAppend acc3.formToMeds (pyLower med.pharma_form) i }
    else acc3
  let kwDict := (extractKeywords med).foldl (fun d kw => dictAppend d kw i) acc4.keywords
  { acc4 with keywords := kwDict }

/-- Model of `MedicationSearchEngine._build_search_index`. -/
def buildSearchIndex (meds : List MedicationRecord) : SearchIndex :=
  (meds.enum.foldl (fun acc p => indexStep acc p.1 p.2) ⟨[], [], [], [], []⟩)

/-- The part of `quick_lookup` after the exact-code fast path has been
missed: name substring matches (in dict order, no dedup), then component
substring matches (at most 3 ordinals per matched component, deduplicated
against the running results), then keyword matches for each query word (at
most 2 ordinals per keyword, deduplicated), the result capped at 10. -/
def quickFallthrough (meds : List MedicationRecord) (idx : SearchIndex)
    (query : String) : List MedicationRecord :=
  let queryLower := pyLower query
  let r1 := (idx.nameToMed.filterMap (fun p =>
      if containsSub queryLower.data p.1.data then some p.2 else none)).map
    (fun i => meds.getD i default)
  let r2 := idx.componentToMeds.foldl (fun res p =>
      if containsSub queryLower.data p.1.data then
        (p.2.take 3).foldl (fun res2 i =>
          if res2.contains (meds.getD i default) then res2
          else res2 ++ [meds.getD i default]) res
      else res) r1
  let r3 := (pySplit queryLower).foldl (fun res w =>
      match dictGetL? idx.keywords w with
      | some is => (is.take 2).foldl (fun res2 i =>
          if res2.contains (meds.getD i default) then res2
          else res2 ++ [meds.getD i default]) res
      | none => res) r2
  r3.take 10

/-- Model of `MedicationSearchEngine.quick_lookup`: if the query contains
eight consecutive digits (leftmost window) and that window is a key of the
CIS index, return exactly that record; otherwise fall through to the
name/component/keyword stages. -/
def quick_lookup (meds : List MedicationRecord) (idx : SearchIndex)
    (query : String) : List MedicationRecord :=
  match firstDigitWindow query.data with
  | some w =>
    match dictGet? idx.cisToMed (String.mk w) with
    | some i => [meds.getD i default]
    | none => quickFallthrough meds idx query
  | none => quickFallthrough meds idx query

/-! ### Generic lemmas about the sorting and slicing helpers -/

/-- The lexicographic order realized by the stable ascending argsort:
score strictly smaller, or equal score and smaller ordinal. -/
def lexLt (scores : List Int) (i j : Nat) : Prop :=
  scores.getD i 0 < scores.getD j 0 ∨ (scores.getD i 0 = scores.getD j 0 ∧ i < j)

instance (scores : List Int) (i j : Nat) : Decidable (lexLt scores i j) := by
  unfold lexLt; infer_instance

theorem sortedInsert_perm (f : Nat → Int) (i : Nat) :
    ∀ l : List Nat, List.Perm (sortedInsert f i l) (i :: l) := by
  intro l
  induction l with
  | nil => simp [sortedInsert]
  | cons j rest ih =>
    by_cases h : f i < f j
    · simp [sortedInsert, h]
    · simp only [sortedInsert, if_neg h]
      exact List.Perm.trans (List.Perm.cons j ih) (List.Perm.swap i j rest)

theorem mem_sortedInsert (f : Nat → Int) (i : Nat) (l : List Nat) (k : Nat) :
    k ∈ sortedInsert f i l ↔ k = i ∨ k ∈ l := by
  have h := (sortedInsert_perm f i l).mem_iff (a := k)
  simpa using h

theorem sortedInsert_pairwise (scores : List Int) (i : Nat) :
    ∀ l : List Nat, l.Pairwise (lexLt scores) → (∀ j ∈ l, j < i) →
      (sortedInsert (fun k => scores.getD k 0) i l).Pairwise (lexLt scores) := by
  intro l
  induction l with
  | nil => intro _ _; simp [sortedInsert]
  | cons j rest ih =>
    intro hl hmem
    rw [List.pairwise_cons] at hl
    by_cases h : scores.getD i 0 < scores.getD j 0
    · simp only [sortedInsert, if_pos h]
      refine List.Pairwise.cons ?_ (List.Pairwise.cons hl.1 hl.2)
      intro k hk
      rw [List.mem_cons] at hk
      rcases hk with rfl | hk
      · exact Or.inl h
      · rcases hl.1 k hk with hlt | ⟨heq, _⟩
        · exact Or.inl (lt_trans h hlt)
        · exact Or.inl (heq ▸ h)
    · simp only [sortedInsert, if_neg h]
      refine List.Pairwise.cons ?_ ?_
      · intro k hk
        rw [mem_sortedInsert] at hk
        rcases hk with rfl | hk
        · rcases lt_or_eq_of_le (le_of_not_lt h) with hlt | heq
          · exact Or.inl hlt
          · exact Or.inr ⟨heq, hmem j (List.mem_cons_self j rest)⟩
        · exact hl.1 k hk
      · exact ih hl.2 (fun k hk => hmem k (List.mem_cons_of_mem j hk))

theorem argsortAux_spec (scores : List Int) :
    ∀ n : Nat,
      ((List.range n).foldl
        (fun acc i => sortedInsert (fun k => scores.getD k 0) i acc) []).Pairwise
          (lexLt scores) ∧
      List.Perm
        ((List.range n).foldl
          (fun acc i => sortedInsert (fun k => scores.getD k 0) i acc) [])
        (List.range n) := by
  intro n
  induction n with
  | zero => simp
  | succ m ih =>
    rw [List.range_succ, List.foldl_append]
    set acc := (List.range m).foldl
      (fun acc i => sortedInsert (fun k => scores.getD k 0) i acc) [] with hacc
    simp only [List.foldl_cons, List.foldl_nil]
    constructor
    · exact sortedInsert_pairwise scores m acc ih.1
        (fun j hj => List.mem_range.mp (ih.2.mem_iff.mp hj))
    · exact List.Perm.trans (sortedInsert_perm _ m acc)
        (List.Perm.trans (List.Perm.cons m ih.2)
          (List.perm_append_singleton m (List.range m)).symm)

theorem argsortAsc_pairwise (scores : List Int) :
    (argsortAsc scores).Pairwise (lexLt scores) :=
  (argsortAux_spec scores scores.length).1

theorem argsortAsc_perm (scores : List Int) :
    List.Perm (argsortAsc scores) (List.range scores.length) :=
  (argsortAux_spec scores scores.length).2

theorem argsortAsc_length (scores : List Int) :
    (argsortAsc scores).length = scores.length := by
  have h := (argsortAsc_perm scores).length_eq
  simpa using h

theorem mem_argsortAsc (scores : List Int) (i : Nat) :
    i ∈ argsortAsc scores ↔ i < scores.length := by
  rw [(argsortAsc_perm scores).mem_iff, List.mem_range]

theorem argsortAsc_nodup (scores : List Int) : (argsortAsc scores).Nodup :=
  (argsortAsc_perm scores).nodup_iff.mpr (List.nodup_range _)

theorem lastSlice_sublist (k : Nat) (l : List α) : (lastSlice k l).Sublist l := by
  unfold lastSlice
  by_cases h : k = 0
  · simp [h]
  · simp only [if_neg h]
    exact List.drop_sublist _ _

theorem lastSlice_length (k : Nat) (l : List α) (hk : k ≠ 0) :
    (lastSlice k l).length = min k l.length := by
  unfold lastSlice
  simp only [if_neg hk, List.length_drop]
  omega

theorem topIndices_length (sims : List Int) (k : Nat) (hk : k ≠ 0) :
    (topIndices sims k).length = min k sims.length := by
  unfold topIndices
  rw [List.length_reverse, lastSlice_length _ _ hk, argsortAsc_length]

theorem topIndices_length_le (sims : List Int) (k : Nat) :
    (topIndices sims k).length ≤ sims.length := by
  unfold topIndices
  rw [List.length_reverse]
  calc (lastSlice k (argsortAsc sims)).length
      ≤ (argsortAsc sims).length := (lastSlice_sublist _ _).length_le
    _ = sims.length := argsortAsc_length sims

theorem mem_topIndices_lt (sims : List Int) (k : Nat) (i : Nat)
    (h : i ∈ topIndices sims k) : i < sims.length := by
  unfold topIndices at h
  rw [List.mem_reverse] at h
  exact (mem_argsortAsc sims i).mp ((lastSlice_sublist _ _).mem h)

theorem topIndices_pairwise (sims : List Int) (k : Nat) :
    (topIndices sims k).Pairwise (fun a b => lexLt sims b a) := by
  unfold topIndices
  rw [List.pairwise_reverse]
  exact List.Pairwise.sublist (lastSlice_sublist _ _) (argsortAsc_pairwise sims)

theorem topIndices_nodup (sims : List Int) (k : Nat) : (topIndices sims k).Nodup := by
  unfold topIndices
  rw [List.nodup_reverse]
  exact (lastSlice_sublist _ _).nodup (argsortAsc_nodup sims)

theorem topIndices_excluded (sims : List Int) (k : Nat) (i j : Nat)
    (hi : i ∈ topIndices sims k) (hjn : j < sims.length)
    (hj : j ∉ topIndices sims k) : lexLt sims j i := by
  unfold topIndices at hi hj
  rw [List.mem_reverse] at hi
  rw [List.mem_reverse] at hj
  by_cases hk : k = 0
  · exfalso
    apply hj
    simp only [lastSlice, hk, if_pos rfl] at hi ⊢
    exact (mem_argsortAsc sims j).mpr hjn
  · have hdecomp :
        (argsortAsc sims).take ((argsortAsc sims).length - k) ++
          lastSlice k (argsortAsc sims) = argsortAsc sims := by
      simp [lastSlice, if_neg hk]
    have hpw := argsortAsc_pairwise sims
    rw [← hdecomp, List.pairwise_append] at hpw
    have hjmem : j ∈ argsortAsc sims := (mem_argsortAsc sims j).mpr hjn
    rw [← hdecomp, List.mem_append] at hjmem
    rcases hjmem with hjmem | hjmem
    · exact hpw.2.2 j hjmem i hi
    · exact absurd hjmem hj

/-! ### Shape lemmas for `searchMedications` -/

theorem search_of_no_embeddings (s : RagState) (qe : Option (List Int)) (k : Nat)
    (h : s.embeddings = none) : searchMedications s qe k = [] := by
  unfold searchMedications
  rw [h]

theorem search_of_qe_none (s : RagState) (k : Nat) :
    searchMedications s none k = [] := by
  unfold searchMedications
  cases s.embeddings with
  | none => rfl
  | some m => by_cases h : s.hasClient <;> simp [h]

/-- When the index is present, the client is up, the query vector is
dimension-compatible and every row ordinal is a valid record ordinal, the
search serves the mapped top indices (the in-range guard passes). -/
theorem searchMedications_serves (s : RagState) (matrix : List (List Int))
    (qv : List Int) (top_k : Nat)
    (hemb : s.embeddings = some matrix) (hcl : s.hasClient = true)
    (hdim : matrix.all (fun row => row.length = qv.length) = true)
    (hrows : matrix.length ≤ s.medications.length) :
    searchMedications s (some qv) top_k =
      (topIndices (matrix.map (fun row => dot row qv)) top_k).map
        (fun i => (s.medications.getD i default,
          (matrix.map (fun row => dot row qv)).getD i 0)) := by
  unfold searchMedications
  rw [hemb, hcl]
  simp only [Bool.not_true, Bool.false_eq_true, if_false]
  rw [hdim]
  simp only [if_true]
  rw [if_pos]
  rw [List.all_eq_true]
  intro i hi
  have h1 := mem_topIndices_lt _ top_k i hi
  rw [List.length_map] at h1
  simpa using Nat.lt_of_lt_of_le h1 hrows

/-- The search never returns more than `top_k` results for `top_k ≠ 0`, and
never more than the row count. -/
theorem searchMedications_length_le (s : RagState) (qe : Option (List Int))
    (k : Nat) (hk : k ≠ 0) : (searchMedications s qe k).length ≤ k := by
  unfold searchMedications
  cases s.embeddings with
  | none => simp
  | some m =>
    by_cases h : s.hasClient
    · simp only [h, Bool.not_true, Bool.false_eq_true, if_false]
      cases qe with
      | none => simp
      | some qv =>
        by_cases hdim : m.all (fun row => row.length = qv.length)
        · simp only [hdim, if_true]
          by_cases hall :
              (topIndices (m.map (fun row => dot row qv)) k).all
                (fun i => i < s.medications.length)
          · simp only [hall, if_true, List.length_map]
            rw [topIndices_length _ _ hk]
            exact Nat.min_le_left _ _
          · simp [hall]
        · simp [hdim]
    · simp [h]

/-! ### Concrete data used by the concrete instances -/

/-- The record of the specification's worked example (identity fields only;
the other fields are irrelevant to the instances that use it). -/
def medA : MedicationRecord :=
  { cis := "60002283", name := "anastrozole accord", pharma_form := "",
    admin_route := "", status := "", components := [], rcp_text := "",
    notice_text := "" }

/-- A second record, distinct from `medA`. -/
def medB : MedicationRecord := { medA with cis := "60002284", name := "bemed" }

/-- A state whose persisted embedding matrix has one row while two records
are loaded: the stale-index mismatch of the alignment claims. -/
def mismatchState : RagState :=
  { medications := [medA, medB], embeddings := some [[1]],
    savedEmbeddings := none, hasClient := true }

/-- A state with records loaded but no embedding index. -/
def noIndexState : RagState :=
  { medications := [medA], embeddings := none, savedEmbeddings := none,
    hasClient := true }

/-- A state with an empty record store and an (aligned) empty index: a
successful similarity search over it has zero matches. -/
def emptyAlignedState : RagState :=
  { medications := [], embeddings := some [], savedEmbeddings := none,
    hasClient := true }

/-! ### C4: result count, order and distinctness of similarity search -/

/-- C4, counterexample to the claim as stated: over a populated, aligned
one-record index, `search_medications` with `topK = 0` returns 1 result, not
`min(0, 1) = 0` — the Python slice `argsort(sims)[-0:]` is the whole array. -/
theorem c4_counterexample :
    (⟨[medA], some [[1]], none, true⟩ : RagState).embeddings = some [[1]] ∧
    ([[1]] : List (List Int)).length =
      (⟨[medA], some [[1]], none, true⟩ : RagState).medications.length ∧
    (searchMedications ⟨[medA], some [[1]], none, true⟩ (some [1]) 0).length = 1 ∧
    min 0 (⟨[medA], some [[1]], none, true⟩ : RagState).medications.length = 0 :=
  ⟨rfl, rfl, rfl, rfl⟩

/-- C4 (amended): for every populated embedding index aligned with a record
list of size N, every dimension-compatible query vector and every
`topK ≥ 1`, `search_medications` returns exactly `min(topK, N)` pairs,
sorted by non-increasing score, whose underlying record ordinals
(`topIndices`) contain no duplicate.  (For `topK = 0` the Python slice
`[-0:]` instead selects the whole array — see the counterexample.) -/
theorem c4_search_returns_sorted_topk (s : RagState) (matrix : List (List Int))
    (qv : List Int) (top_k : Nat)
    (hemb : s.embeddings = some matrix) (hcl : s.hasClient = true)
    (hdim : matrix.all (fun row => row.length = qv.length) = true)
    (halign : matrix.length = s.medications.length)
    (hk : 1 ≤ top_k) :
    (searchMedications s (some qv) top_k).length = min top_k s.medications.length ∧
    (searchMedications s (some qv) top_k).Pairwise (fun a b => b.2 ≤ a.2) ∧
    (topIndices (matrix.map (fun row => dot row qv)) top_k).Nodup := by
  have hserve := searchMedications_serves s matrix qv top_k hemb hcl hdim (le_of_eq halign)
  refine ⟨?_, ?_, topIndices_nodup _ _⟩
  · rw [hserve, List.length_map, topIndices_length _ _ (by omega), List.length_map, halign]
  · rw [hserve]
    rw [List.pairwise_map]
    refine List.Pairwise.imp ?_ (topIndices_pairwise (matrix.map (fun row => dot row qv)) top_k)
    intro a b hab
    rcases hab with hlt | ⟨heq, _⟩
    · exact le_of_lt hlt
    · exact le_of_eq heq

/-- C4 witness: the amended theorem applied to a concrete aligned one-record
index with `topK = 1`. -/
theorem c4_search_returns_sorted_topk_witness :
    (searchMedications ⟨[medA], some [[1]], none, true⟩ (some [1]) 1).length =
      min 1 (⟨[medA], some [[1]], none, true⟩ : RagState).medications.length ∧
    (searchMedications ⟨[medA], some [[1]], none, true⟩ (some [1]) 1).Pairwise
      (fun a b => b.2 ≤ a.2) ∧
    (topIndices (([[1]] : List (List Int)).map (fun row => dot row [1])) 1).Nodup := by
  exact c4_search_returns_sorted_topk ⟨[medA], some [[1]], none, true⟩ [[1]] [1] 1
    rfl rfl (by decide) (by decide) (by decide)

/-! ### C5: tie-breaking of the top-K selection -/

/-- C5, counterexample to the claim as stated: two records with equal
dot-product score 1; the top-1 selection returns the record with the LARGER
ordinal (`medB`, ordinal 1), not the smaller one — the ascending stable
argsort puts the smaller ordinal first, and taking the last K slots prefers
the later ordinals. -/
theorem c5_counterexample :
    ([[1], [1]] : List (List Int)).map (fun row => dot row [1]) = [1, 1] ∧
    topIndices [1, 1] 1 = [1] ∧
    searchMedications ⟨[medA, medB], some [[1], [1]], none, true⟩ (some [1]) 1 =
      [(medB, 1)] ∧
    medB ≠ medA :=
  ⟨rfl, rfl, rfl, by decide⟩

/-- C5 (amended): among equal-score records the selection prefers the larger
ordinal, not the smaller: the selected index sequence is strictly decreasing
in the (score, ordinal) lexicographic order — so among tied scores the larger
ordinal is ranked first — and every selected index beats every non-selected
valid index in that order — so among tied scores the larger ordinals are the
ones included. -/
theorem c5_ties_prefer_larger_ordinal (sims : List Int) (k : Nat) :
    (topIndices sims k).Pairwise (fun a b => lexLt sims b a) ∧
    (∀ i ∈ topIndices sims k, ∀ j, j < sims.length → j ∉ topIndices sims k →
      lexLt sims j i) := by
  refine ⟨topIndices_pairwise sims k, ?_⟩
  intro i hi j hjn hj
  exact topIndices_excluded sims k i j hi hjn hj

/-- C5 witness: applying the amended theorem at equal scores `[1, 1]` with
`k = 1`: the excluded ordinal 0 is lexicographically below the included
ordinal 1. -/
theorem c5_ties_prefer_larger_ordinal_witness : lexLt [1, 1] 0 1 :=
  (c5_ties_prefer_larger_ordinal [1, 1] 1).2 1 (by decide) 0 (by decide) (by decide)

/-! ### C1: behaviour under index/record-count misalignment -/

/-- C1, counterexample to the claim as stated: `mismatchState` has 1
embedding row and 2 records; no `IndexUnavailable`/`AlignmentError` is
reported — similarity search serves a non-empty (record, score) result. -/
theorem c1_counterexample :
    mismatchState.embeddings = some [[1]] ∧
    ([[1]] : List (List Int)).length ≠ mismatchState.medications.length ∧
    searchMedications mismatchState (some [1]) 5 = [(medA, 1)] :=
  ⟨rfl, by decide, rfl⟩

/-- C1 (amended): no alignment check exists.  When the loaded matrix has
fewer rows than records (a stale persisted index), similarity search does
not fail: it serves a non-empty result computed from the aligned prefix of
the record list, exactly as if the index were complete.  (When the matrix
has more rows, the out-of-range lookup raises an `IndexError` that is
swallowed into an empty result — also not a reported alignment failure.) -/
theorem c1_mismatch_serves_prefix (s : RagState) (matrix : List (List Int))
    (qv : List Int) (top_k : Nat)
    (hemb : s.embeddings = some matrix) (hcl : s.hasClient = true)
    (hdim : matrix.all (fun row => row.length = qv.length) = true)
    (hmis : matrix.length < s.medications.length)
    (hrows : 1 ≤ matrix.length) (hk : 1 ≤ top_k) :
    searchMedications s (some qv) top_k ≠ [] ∧
    ∀ p ∈ searchMedications s (some qv) top_k,
      p.1 ∈ s.medications.take matrix.length := by
  have hserve := searchMedications_serves s matrix qv top_k hemb hcl hdim (le_of_lt hmis)
  constructor
  · rw [hserve]
    intro hnil
    have := congrArg List.length hnil
    rw [List.length_map, topIndices_length _ _ (by omega), List.length_map,
      List.length_nil] at this
    omega
  · intro p hp
    rw [hserve, List.mem_map] at hp
    obtain ⟨i, hi, hpe⟩ := hp
    have hilt : i < matrix.length := by
      have := mem_topIndices_lt _ top_k i hi
      rwa [List.length_map] at this
    have hlen : i < s.medications.length := lt_trans hilt hmis
    have htl : i < (s.medications.take matrix.length).length := by
      rw [List.length_take]
      omega
    have : p.1 = s.medications.getD i default := by rw [← hpe]
    rw [this, List.getD_eq_getElem?_getD, List.getElem?_eq_getElem hlen,
      Option.getD_some]
    have hgt : (s.medications.take matrix.length)[i] = s.medications[i] :=
      List.getElem_take s.medications
    rw [← hgt]
    exact List.getElem_mem _

/-- C1 witness: the amended theorem applied to the concrete mismatching
state (1 embedding row, 2 records). -/
theorem c1_mismatch_serves_prefix_witness :
    searchMedications mismatchState (some [1]) 5 ≠ [] ∧
    ∀ p ∈ searchMedications mismatchState (some [1]) 5,
      p.1 ∈ mismatchState.medications.take ([[1]] : List (List Int)).length :=
  c1_mismatch_serves_prefix mismatchState [[1]] [1] 5 rfl rfl (by decide)
    (by decide) (by decide) (by decide)

/-! ### C2: searching with no populated index -/

/-- C2, counterexample to the claim as stated: with no index populated,
`search_medications` returns the plain empty list — the very value a
successful search with zero matches returns (here: over an empty record
store with an aligned empty index) — so the caller cannot distinguish the
two; no typed `IndexUnavailable` failure reaches the caller. -/
theorem c2_counterexample :
    noIndexState.embeddings = none ∧
    noIndexState.medications ≠ [] ∧
    emptyAlignedState.embeddings = some [] ∧
    searchMedications noIndexState (some [1]) 5 = [] ∧
    searchMedications emptyAlignedState (some [1]) 5 = [] ∧
    searchMedications noIndexState (some [1]) 5 =
      searchMedications emptyAlignedState (some [1]) 5 :=
  ⟨rfl, by decide, rfl, rfl, rfl, rfl⟩

/-- C2 (amended): when no embedding index is populated, `search_medications`
returns an empty list for every query and every `topK` (the error is only
logged); the caller receives the same value as for a successful search with
zero matches. -/
theorem c2_no_index_returns_empty (s : RagState) (qe : Option (List Int))
    (k : Nat) (h : s.embeddings = none) : searchMedications s qe k = [] :=
  search_of_no_embeddings s qe k h

/-- C2 witness: the amended theorem applied to the concrete no-index state. -/
theorem c2_no_index_returns_empty_witness :
    searchMedications noIndexState (some [1]) 5 = [] :=
  c2_no_index_returns_empty noIndexState (some [1]) 5 rfl

/-! ### C7: fail-fast atomicity of the embedding build -/

theorem runBatches_none (provider : List String → Option (List (List Int))) :
    ∀ batches : List (List String),
      (∃ b ∈ batches, provider b = none) → runBatches provider batches = none := by
  intro batches
  induction batches with
  | nil => rintro ⟨b, hb, _⟩; cases hb
  | cons b0 rest ih =>
    rintro ⟨b, hb, hfail⟩
    rw [List.mem_cons] at hb
    unfold runBatches
    rcases hb with rfl | hb
    · rw [hfail]
    · cases hp : provider b0 with
      | none => rfl
      | some embs => rw [ih ⟨b, hb, hfail⟩]

/-- C7: if any batch of the chunked searchable texts fails at the embedding
provider, `generate_embeddings` reports failure (`False`) and leaves the
state — both the in-memory index and the persisted store — exactly as it
was: no partial result is kept.  (The hypothesis `0 < batch_size` excludes
Python's uncaught `ValueError` for a zero step, under which no batch request
is ever issued.) -/
theorem c7_batch_failure_is_atomic (s : RagState)
    (provider : List String → Option (List (List Int))) (batch_size : Nat)
    (hbs : 0 < batch_size)
    (hfail : ∃ b ∈ chunks batch_size (s.medications.map toSearchableText),
      provider b = none) :
    generate_embeddings s provider batch_size = some (false, s) := by
  unfold generate_embeddings
  rw [if_neg (by omega)]
  by_cases hcl : s.hasClient
  · simp only [hcl, Bool.not_true, Bool.false_eq_true, if_false]
    rw [runBatches_none provider _ hfail]
  · simp [hcl]

/-- C7 witness: a concrete one-record state with an always-failing provider
and batch size 1: the build fails and the state is untouched. -/
theorem c7_batch_failure_is_atomic_witness :
    generate_embeddings ⟨[medA], none, none, true⟩ (fun _ => none) 1 =
      some (false, ⟨[medA], none, none, true⟩) := by
  refine c7_batch_failure_is_atomic ⟨[medA], none, none, true⟩ (fun _ => none) 1
    (by decide) ?_
  refine ⟨[toSearchableText medA], ?_, rfl⟩
  have h : chunks 1 (([medA] : List MedicationRecord).map toSearchableText) =
      [[toSearchableText medA]] := rfl
  rw [h]
  exact List.mem_singleton.mpr rfl

/-! ### C8: record-store loading -/

/-- Does this input line produce a record? -/
def isParsedLine : LineParse → Bool
  | LineParse.parsed _ => true
  | _ => false

/-- The raw objects of the successfully parsed lines, in input order. -/
def parsedRaws (lines : List LineParse) : List RawMed :=
  lines.filterMap (fun l =>
    match l with
    | LineParse.parsed r => some r
    | _ => none)

/-- C8: record-store loading is total (it never aborts on a malformed line):
the loaded records are exactly the records of the successfully parsed lines,
in input order; the record count equals the number of successfully parsed
lines; and in every parsed line each absent optional field defaults to the
empty string (empty list for components), never to a null-like value. -/
theorem c8_load_skips_and_defaults (lines : List LineParse) :
    loadDatabase lines = (parsedRaws lines).map mkRecord ∧
    (loadDatabase lines).length = lines.countP isParsedLine ∧
    (∀ r : RawMed,
      (r.cis = none → (mkRecord r).cis = "") ∧
      (r.name = none → (mkRecord r).name = "") ∧
      (r.pharmaForm = none → (mkRecord r).pharma_form = "") ∧
      (r.adminRoute = none → (mkRecord r).admin_route = "") ∧
      (r.status = none → (mkRecord r).status = "") ∧
      (r.components = none → (mkRecord r).components = []) ∧
      (r.rcpText = none → (mkRecord r).rcp_text = "") ∧
      (r.noticeText = none → (mkRecord r).notice_text = "")) := by
  refine ⟨?_, ?_, ?_⟩
  · induction lines with
    | nil => rfl
    | cons l rest ih =>
      cases l <;> simp [loadDatabase, parsedRaws, lineRecord?, List.filterMap_cons] <;>
        simpa [loadDatabase, parsedRaws] using ih
  · induction lines with
    | nil => rfl
    | cons l rest ih =>
      cases l <;>
        simp [loadDatabase, lineRecord?, List.filterMap_cons, List.countP_cons,
          isParsedLine] <;>
        simpa [loadDatabase] using ih
  · intro r
    refine ⟨?_, ?_, ?_, ?_, ?_, ?_, ?_, ?_⟩ <;> intro h <;> simp [mkRecord, h]

/-- C8 witness: a concrete line sequence with one malformed line, one
non-object line and one parsed line with every field absent: exactly one
record results, with all-default fields. -/
theorem c8_load_skips_and_defaults_witness :
    loadDatabase [LineParse.malformed,
        LineParse.parsed ⟨none, none, none, none, none, none, none, none⟩,
        LineParse.badObject] =
      [{ cis := "", name := "", pharma_form := "", admin_route := "", status := "",
         components := [], rcp_text := "", notice_text := "" }] ∧
    (loadDatabase [LineParse.malformed,
        LineParse.parsed ⟨none, none, none, none, none, none, none, none⟩,
        LineParse.badObject]).length = 1 ∧
    (mkRecord ⟨none, none, none, none, none, none, none, none⟩).cis = "" := by
  refine ⟨?_, ?_, ?_⟩
  · have h := (c8_load_skips_and_defaults [LineParse.malformed,
      LineParse.parsed ⟨none, none, none, none, none, none, none, none⟩,
      LineParse.badObject]).1
    rw [h]; rfl
  · have h := (c8_load_skips_and_defaults [LineParse.malformed,
      LineParse.parsed ⟨none, none, none, none, none, none, none, none⟩,
      LineParse.badObject]).2.1
    rw [h]; rfl
  · exact (((c8_load_skips_and_defaults []).2.2
      ⟨none, none, none, none, none, none, none, none⟩).1) rfl

/-! ### C10: the fixed fallback sentence of context assembly -/

/-- C10: whenever similarity search yields no results — no index populated,
a failed provider call on the query, or (in general) an empty result — the
assembled context is the same fixed non-empty French sentence, for every
`maxLength`, making the three situations indistinguishable in the output. -/
theorem c10_fallback_sentence (s : RagState) (qe : Option (List Int))
    (maxLen : Nat)
    (h : s.embeddings = none ∨ qe = none ∨ searchMedications s qe 3 = []) :
    get_context_for_query s qe maxLen = fallbackSentence ∧
    fallbackSentence.length ≠ 0 := by
  have hempty : searchMedications s qe 3 = [] := by
    rcases h with h | h | h
    · exact search_of_no_embeddings s qe 3 h
    · rw [h]; exact search_of_qe_none s 3
    · exact h
  constructor
  · unfold get_context_for_query
    rw [hempty]
    rfl
  · decide

/-- C10 witness: the theorem applied to the concrete no-index state. -/
theorem c10_fallback_sentence_witness :
    get_context_for_query noIndexState (some [1]) 4000 = fallbackSentence ∧
    fallbackSentence.length ≠ 0 :=
  c10_fallback_sentence noIndexState (some [1]) 4000 (Or.inl rfl)

/-! ### C6: the exact-code fast path of quick_lookup -/

theorem dictSet_forall (P : String × Nat → Prop) (d : List (String × Nat))
    (k : String) (v : Nat) (hd : ∀ kv ∈ d, P kv) (hkv : P (k, v)) :
    ∀ kv ∈ dictSet d k v, P kv := by
  intro kv hm
  unfold dictSet at hm
  by_cases h : d.any (fun p => p.1 = k)
  · rw [if_pos h, List.mem_map] at hm
    obtain ⟨p, hp, hpe⟩ := hm
    by_cases hpk : p.1 = k
    · rw [if_pos hpk] at hpe
      exact hpe ▸ hkv
    · rw [if_neg hpk] at hpe
      exact hpe ▸ hd p hp
  · rw [if_neg h, List.mem_append] at hm
    rcases hm with hm | hm
    · exact hd kv hm
    · rw [List.mem_singleton] at hm
      exact hm ▸ hkv

theorem indexStep_cisToMed (acc : SearchIndex) (i : Nat) (med : MedicationRecord) :
    (indexStep acc i med).cisToMed = dictSet acc.cisToMed med.cis i := by
  unfold indexStep
  by_cases h : med.pharma_form = "" <;> simp [h]

theorem buildIndex_fold_cis (meds : List MedicationRecord) :
    ∀ (l : List (Nat × MedicationRecord)) (acc : SearchIndex),
      (∀ p ∈ l, p.1 < meds.length ∧ meds.getD p.1 default = p.2) →
      (∀ kv ∈ acc.cisToMed,
        kv.2 < meds.length ∧ (meds.getD kv.2 default).cis = kv.1) →
      ∀ kv ∈ (l.foldl (fun a q => indexStep a q.1 q.2) acc).cisToMed,
        kv.2 < meds.length ∧ (meds.getD kv.2 default).cis = kv.1 := by
  intro l
  induction l with
  | nil => intro acc _ hacc; simpa using hacc
  | cons q rest ih =>
    intro acc hl hacc
    rw [List.foldl_cons]
    refine ih _ (fun p hp => hl p (List.mem_cons_of_mem q hp)) ?_
    rw [indexStep_cisToMed]
    refine dictSet_forall _ _ _ _ hacc ?_
    have hq := hl q (List.mem_cons_self q rest)
    exact ⟨hq.1, by rw [hq.2]⟩

theorem buildIndex_cis_ok (meds : List MedicationRecord) :
    ∀ kv ∈ (buildSearchIndex meds).cisToMed,
      kv.2 < meds.length ∧ (meds.getD kv.2 default).cis = kv.1 := by
  unfold buildSearchIndex
  refine buildIndex_fold_cis meds meds.enum _ ?_ (by simp)
  intro p hp
  have h := List.mk_mem_enum_iff_getElem?.mp (by simpa using hp)
  have hlt : p.1 < meds.length := (List.getElem?_eq_some.mp h).1
  constructor
  · exact hlt
  · rw [List.getD_eq_getElem?_getD, h, Option.getD_some]

theorem dictGet?_mem (d : List (String × Nat)) (k : String) (i : Nat)
    (h : dictGet? d k = some i) : (k, i) ∈ d := by
  unfold dictGet? at h
  cases hf : d.find? (fun p => p.1 = k) with
  | none => rw [hf] at h; cases h
  | some p =>
    rw [hf] at h
    have hm := List.mem_of_find?_eq_some hf
    have hp : p.1 = k := by simpa using List.find?_some hf
    have hpi : p.2 = i := by simpa using h
    have : p = (k, i) := by
      cases p
      simp_all
    exact this ▸ hm

/-- C6, counterexample to the claim as stated: the query
`"999999999 60002283"` contains exactly one maximal digit run of length 8,
namely the loaded record's code `60002283`; but the fast path examines only
the leftmost eight consecutive digits, `99999999` (the first eight digits of
the 9-digit run), which is not a known code, so the lookup falls through and
returns `[]` instead of the single matching record. -/
theorem c6_counterexample :
    ((digitRuns "999999999 60002283".data).map String.mk =
      ["999999999", "60002283"]) ∧
    ((digitRuns "999999999 60002283".data).filter
      (fun r => r.length == 8)).map String.mk = ["60002283"] ∧
    medA.cis = "60002283" ∧
    firstDigitWindow "999999999 60002283".data = some "99999999".data ∧
    quick_lookup [medA] (buildSearchIndex [medA]) "999999999 60002283" = [] ∧
    [medA] ≠ ([] : List MedicationRecord) :=
  ⟨rfl, rfl, rfl, rfl, rfl, by decide⟩

/-- C6 (amended): for every query whose leftmost window of eight consecutive
digits is the code of a loaded record, `quick_lookup` returns the
single-element list of exactly that record, regardless of the surrounding
text, short-circuiting all other match types.  (As the counterexample shows,
"contains exactly one digit run of code length" is not sufficient: an
earlier, longer digit run captures the window.) -/
theorem c6_first_window_code_lookup (meds : List MedicationRecord)
    (query : String) (w : List Char) (i : Nat)
    (hw : firstDigitWindow query.data = some w)
    (hi : dictGet? (buildSearchIndex meds).cisToMed (String.mk w) = some i) :
    quick_lookup meds (buildSearchIndex meds) query = [meds.getD i default] ∧
    i < meds.length ∧ (meds.getD i default).cis = String.mk w := by
  have hmem := dictGet?_mem _ _ _ hi
  have hok := buildIndex_cis_ok meds (String.mk w, i) hmem
  refine ⟨?_, hok.1, hok.2⟩
  unfold quick_lookup
  rw [hw]
  simp only [hi]

/-- C6 witness: the amended theorem at the specification's own example
query, which returns exactly the `60002283` record. -/
theorem c6_first_window_code_lookup_witness :
    quick_lookup [medA] (buildSearchIndex [medA]) "informations sur 60002283" =
      [([medA] : List MedicationRecord).getD 0 default] ∧
    0 < ([medA] : List MedicationRecord).length ∧
    (([medA] : List MedicationRecord).getD 0 default).cis =
      String.mk "60002283".data :=
  c6_first_window_code_lookup [medA] "informations sur 60002283"
    "60002283".data 0 rfl rfl

/-! ### C9: the fast path examines only the leftmost eight-digit window -/

theorem digitRuns_cons_of_neg (c : Char) (t : List Char) (hc : ¬c.isDigit) :
    digitRuns (c :: t) = digitRuns t := by
  simp [digitRuns, digitRunsGo, hc]

theorem digitRunsGo_nil (acc : List Char) :
    digitRunsGo [] acc = if acc = [] then [] else [acc.reverse] := rfl

theorem digitRunsGo_cons (c : Char) (t acc : List Char) :
    digitRunsGo (c :: t) acc =
      if c.isDigit then digitRunsGo t (c :: acc)
      else if acc = [] then digitRunsGo t []
      else acc.reverse :: digitRunsGo t [] := rfl

theorem firstDigitWindow_cons (c : Char) (t : List Char) :
    firstDigitWindow (c :: t) =
      if (((c :: t).take 8).length = 8 && ((c :: t).take 8).all Char.isDigit) then
        some ((c :: t).take 8)
      else firstDigitWindow t := rfl

theorem digitRunsGo_acc :
    ∀ (t acc : List Char), acc ≠ [] →
      digitRunsGo t acc =
        (acc.reverse ++ t.takeWhile Char.isDigit) ::
          digitRuns (t.dropWhile Char.isDigit) := by
  intro t
  induction t with
  | nil =>
    intro acc hacc
    rw [digitRunsGo_nil, if_neg hacc]
    simp [digitRuns, digitRunsGo_nil]
  | cons c t' ih =>
    intro acc hacc
    rw [digitRunsGo_cons]
    by_cases hc : c.isDigit
    · rw [if_pos hc, List.takeWhile_cons_of_pos hc, List.dropWhile_cons_of_pos hc,
        ih (c :: acc) (by simp)]
      simp
    · rw [if_neg hc, if_neg hacc, List.takeWhile_cons_of_neg hc,
        List.dropWhile_cons_of_neg hc, digitRuns_cons_of_neg c t' hc]
      simp [digitRuns]

theorem digitRuns_cons_of_pos (c : Char) (t : List Char) (hc : c.isDigit) :
    digitRuns (c :: t) =
      (c :: t.takeWhile Char.isDigit) :: digitRuns (t.dropWhile Char.isDigit) := by
  unfold digitRuns
  rw [digitRunsGo_cons, if_pos hc, digitRunsGo_acc t [c] (by simp)]
  simp [digitRuns]

theorem dropWhile_shape (l : List Char) :
    l.dropWhile Char.isDigit = [] ∨
      ∃ r rt, l.dropWhile Char.isDigit = r :: rt ∧ r.isDigit = false := by
  cases h : l.dropWhile Char.isDigit with
  | nil => exact Or.inl rfl
  | cons r rt =>
    refine Or.inr ⟨r, rt, rfl, ?_⟩
    have hh := List.head_dropWhile_not Char.isDigit l (by simp [h])
    simp only [h, List.head_cons] at hh
    exact hh

theorem all_digit_false_of_mem (l : List Char) (x : Char) (hx : x ∈ l)
    (hxd : x.isDigit = false) : l.all Char.isDigit = false := by
  cases hb : l.all Char.isDigit
  · rfl
  · exact absurd (List.all_eq_true.mp hb x hx) (by simp [hxd])

theorem firstDigitWindow_skip_short (rest : List Char)
    (hrest : rest = [] ∨ ∃ r rt, rest = r :: rt ∧ r.isDigit = false) :
    ∀ d : List Char, (∀ x ∈ d, x.isDigit) → d.length < 8 →
      firstDigitWindow (d ++ rest) = firstDigitWindow rest := by
  intro d
  induction d with
  | nil => intro _ _; simp
  | cons x d' ih =>
    intro hall hlen
    rw [List.cons_append, firstDigitWindow_cons, ← List.cons_append]
    rw [if_neg]
    · exact ih (fun y hy => hall y (List.mem_cons_of_mem x hy))
        (lt_trans (by simp) hlen)
    · rcases hrest with rfl | ⟨r, rt, rfl, hr⟩
      · intro hcond
        rw [Bool.and_eq_true] at hcond
        have h1 := of_decide_eq_true hcond.1
        rw [List.length_take, List.append_nil] at h1
        omega
      · intro hcond
        rw [Bool.and_eq_true] at hcond
        have hrmem : r ∈ ((x :: d') ++ r :: rt).take 8 := by
          rw [List.take_append_eq_append_take,
            List.take_of_length_le (by omega : (x :: d').length ≤ 8)]
          refine List.mem_append_right _ ?_
          have h8 : ∃ m, 8 - (x :: d').length = m + 1 := by
            refine ⟨8 - (x :: d').length - 1, ?_⟩
            simp only [List.length_cons] at hlen ⊢
            omega
          obtain ⟨m, hm⟩ := h8
          rw [hm, List.take_succ_cons]
          exact List.mem_cons_self r _
        have := all_digit_false_of_mem _ r hrmem hr
        rw [hcond.2] at this
        cases this

theorem firstDigitWindow_eq_runs :
    ∀ (n : Nat) (l : List Char), l.length ≤ n →
      firstDigitWindow l =
        ((digitRuns l).find? (fun r => decide (8 ≤ r.length))).map
          (fun r => r.take 8) := by
  intro n
  induction n with
  | zero =>
    intro l hl
    rw [List.length_eq_zero.mp (Nat.le_zero.mp hl)]
    rfl
  | succ m ih =>
    intro l hl
    cases l with
    | nil => rfl
    | cons c t =>
      by_cases hc : c.isDigit
      · rw [digitRuns_cons_of_pos c t hc, List.find?_cons]
        have hsplit : c :: t = (c :: t.takeWhile Char.isDigit) ++
            t.dropWhile Char.isDigit := by
          rw [List.cons_append, List.takeWhile_append_dropWhile]
        have hrundig : ∀ x ∈ c :: t.takeWhile Char.isDigit, x.isDigit = true := by
          intro x hx
          rw [List.mem_cons] at hx
          rcases hx with rfl | hx
          · exact hc
          · exact List.mem_takeWhile_imp hx
        by_cases hlen : 8 ≤ (c :: t.takeWhile Char.isDigit).length
        · have hd : decide (8 ≤ (c :: t.takeWhile Char.isDigit).length) = true :=
            decide_eq_true hlen
          simp only [hd, Option.map_some]
          rw [firstDigitWindow_cons]
          have htake : (c :: t).take 8 = (c :: t.takeWhile Char.isDigit).take 8 := by
            conv_lhs => rw [hsplit]
            rw [List.take_append_of_le_length hlen]
          rw [if_pos]
          · rw [htake]
            rfl
          · rw [htake, Bool.and_eq_true]
            constructor
            · simp only [List.length_take, decide_eq_true_eq]
              omega
            · rw [List.all_eq_true]
              intro x hx
              exact hrundig x (List.mem_of_mem_take hx)
        · have hd : decide (8 ≤ (c :: t.takeWhile Char.isDigit).length) = false :=
            decide_eq_false hlen
          simp only [hd]
          have hrw : firstDigitWindow (c :: t) =
              firstDigitWindow (t.dropWhile Char.isDigit) := by
            conv_lhs => rw [hsplit]
            exact firstDigitWindow_skip_short _ (dropWhile_shape t) _
              hrundig (by omega)
          rw [hrw]
          refine ih (t.dropWhile Char.isDigit) ?_
          have := (List.dropWhile_sublist Char.isDigit (l := t)).length_le
          simp only [List.length_cons] at hl
          omega
      · rw [digitRuns_cons_of_neg c t hc, firstDigitWindow_cons]
        rw [if_neg]
        · refine ih t ?_
          simp only [List.length_cons] at hl
          omega
        · intro hcond
          rw [Bool.and_eq_true] at hcond
          have : (List.take 8 (c :: t)).all Char.isDigit = false := by
            refine all_digit_false_of_mem _ c ?_ (by simpa using hc)
            rw [List.take_succ_cons]
            exact List.mem_cons_self c _
          rw [hcond.2] at this
          cases this

/-- C9: the exact-code fast path examines only the leftmost window of eight
consecutive digits — which is the first eight digits of the first maximal
digit run of length at least 8 — and when that window is not a known code,
no other digit run is tried: the lookup is exactly the plain
name/component/keyword fall-through, with no indication of the unrecognized
code. -/
theorem c9_first_window_only (meds : List MedicationRecord) (idx : SearchIndex)
    (query : String) (w : List Char)
    (hw : firstDigitWindow query.data = some w)
    (hmiss : dictGet? idx.cisToMed (String.mk w) = none) :
    quick_lookup meds idx query = quickFallthrough meds idx query ∧
    firstDigitWindow query.data =
      ((digitRuns query.data).find? (fun r => decide (8 ≤ r.length))).map
        (fun r => r.take 8) := by
  constructor
  · unfold quick_lookup
    rw [hw]
    simp only [hmiss]
  · exact firstDigitWindow_eq_runs query.data.length query.data le_rfl

/-- C9 witness: the query `"123456789 60002283"` over the one-record index:
the examined window is `12345678` (first eight digits of the 9-digit run),
it is unknown, and the lookup equals the plain fall-through. -/
theorem c9_first_window_only_witness :
    quick_lookup [medA] (buildSearchIndex [medA]) "123456789 60002283" =
      quickFallthrough [medA] (buildSearchIndex [medA]) "123456789 60002283" ∧
    firstDigitWindow ("123456789 60002283" : String).data =
      ((digitRuns ("123456789 60002283" : String).data).find?
        (fun r => decide (8 ≤ r.length))).map (fun r => r.take 8) :=
  c9_first_window_only [medA] (buildSearchIndex [medA]) "123456789 60002283"
    "12345678".data rfl rfl

/-! ### C3: the context-length cap -/

theorem str_length_data (s : String) : s.length = s.data.length := by
  cases s
  rfl

theorem cap_le (result : String) (n : Nat) :
    (if result.length > n then String.mk (result.data.take n) else result).length
      ≤ n := by
  by_cases h : result.length > n
  · rw [if_pos h, String.length_mk, List.length_take]
    exact Nat.min_le_left _ _
  · rw [if_neg h]
    omega

theorem extractKeySections_le (t : String) (n : Nat) :
    (extractKeySections t n).length ≤ n := by
  unfold extractKeySections
  by_cases h : t = ""
  · rw [if_pos h]
    simp
  · rw [if_neg h]
    exact cap_le _ n

theorem stripList_le (l : List Char) : (stripList l).length ≤ l.length := by
  unfold stripList
  have h1 := (List.dropWhile_sublist isWS (l := l)).length_le
  have h2 :=
    (List.dropWhile_sublist isWS (l := (l.dropWhile isWS).reverse)).length_le
  simp only [List.length_reverse] at h1 h2 ⊢
  omega

theorem pyStrip_le (s : String) : (pyStrip s).length ≤ s.length := by
  rw [pyStrip, String.length_mk, str_length_data]
  exact stripList_le s.data

theorem fullEntry_le (m : MedicationRecord) (sim : Int) :
    (fullEntry m sim).length ≤
      (baseEntry m sim).length + (sectionsHeader.length + 801) := by
  unfold fullEntry
  by_cases hs : extractKeySections m.rcp_text 800 ≠ ""
  · rw [if_pos hs, String.length_append, String.length_append,
      String.length_append]
    have h1 := extractKeySections_le m.rcp_text 800
    have h2 : ("\n" : String).length = 1 := rfl
    omega
  · rw [if_neg hs]
    omega

theorem assembleLoop_sum_le (maxLen : Nat) :
    ∀ (hits : List (MedicationRecord × Int)) (curLen : Nat),
      curLen + ((assembleLoop maxLen hits curLen).map String.length).sum ≤
        max curLen (maxLen + (sectionsHeader.length + 801)) := by
  intro hits
  induction hits with
  | nil =>
    intro curLen
    simp [assembleLoop]
  | cons p rest ih =>
    intro curLen
    obtain ⟨m, sim⟩ := p
    rw [assembleLoop]
    by_cases hcheck : curLen + (baseEntry m sim).length < maxLen
    · rw [if_pos hcheck]
      simp only [List.map_cons, List.sum_cons]
      have hfull := fullEntry_le m sim
      have hstrip := pyStrip_le (fullEntry m sim)
      have hrec := ih (curLen + (fullEntry m sim).length)
      have hcap : curLen + (fullEntry m sim).length ≤
          maxLen + (sectionsHeader.length + 801) := by omega
      rw [max_eq_right hcap] at hrec
      have hb : curLen + ((pyStrip (fullEntry m sim)).length +
          ((assembleLoop maxLen rest
            (curLen + (fullEntry m sim).length)).map String.length).sum) ≤
          maxLen + (sectionsHeader.length + 801) := by omega
      exact le_trans hb (le_max_right _ _)
    · rw [if_neg hcheck]
      simp

theorem assembleLoop_length_le (maxLen : Nat) :
    ∀ (hits : List (MedicationRecord × Int)) (curLen : Nat),
      (assembleLoop maxLen hits curLen).length ≤ hits.length := by
  intro hits
  induction hits with
  | nil => intro curLen; simp [assembleLoop]
  | cons p rest ih =>
    intro curLen
    obtain ⟨m, sim⟩ := p
    rw [assembleLoop]
    by_cases hcheck : curLen + (baseEntry m sim).length < maxLen
    · rw [if_pos hcheck]
      simp only [List.length_cons]
      exact Nat.succ_le_succ (ih _)
    · rw [if_neg hcheck]
      simp

theorem pyJoin_le (sep : String) :
    ∀ l : List String,
      (pyJoin sep l).length ≤ (l.map String.length).sum + sep.length * l.length := by
  intro l
  induction l with
  | nil => simp [pyJoin]
  | cons x t ih =>
    cases t with
    | nil => simp [pyJoin]
    | cons y t' =>
      rw [pyJoin, String.length_append, String.length_append]
      simp only [List.map_cons, List.sum_cons, List.length_cons] at ih ⊢
      rw [Nat.mul_succ]
      omega

/-- A one-record state whose record carries a regulatory summary with an
extractable indications section. -/
def medC3 : MedicationRecord :=
  { medA with rcp_text :=
      "4.1. Indications thÃ©rapeutiques Efficace contre le cancer." }

/-- The aligned one-record state used by the context-length counterexample. -/
def c3State : RagState :=
  { medications := [medC3], embeddings := some [[1]],
    savedEmbeddings := none, hasClient := true }

set_option maxRecDepth 10000 in
/-- C3, counterexample to the claim as stated: with `maxLength = 114` the
single hit's base block (113 characters, score rendered as `1.000`) passes
the length check, but the key-sections extract is appended AFTER the check,
so the returned context has 172 characters — the output exceeds
`maxLength`. -/
theorem c3_counterexample :
    searchMedications c3State (some [1]) 3 ≠ [] ∧
    (baseEntry medC3 1).length < 114 ∧
    114 < (get_context_for_query c3State (some [1]) 114).length := by
  refine ⟨by decide, by decide, by decide⟩

/-- C3 (amended): the greedy structure of the claim holds — a hit's block
is appended only while the accumulated length (of the grown entries) stays
strictly under `maxLength`, and the first overflow of a BASE block stops
assembly, dropping the remaining hits — but the check is applied to the
base block before the optional key-sections extract is appended, so the
final context length is bounded only by `maxLength` plus one key-sections
block (the wrapper `sectionsHeader`, the 800-character extract cap and its
trailing newline) plus the join separators of the at-most-3 hits; it can
exceed `maxLength` itself (see the counterexample). -/
theorem c3_context_length_bound (s : RagState) (qe : Option (List Int))
    (maxLen : Nat) :
    (get_context_for_query s qe maxLen).length ≤
      maxLen + (sectionsHeader.length + 801) + 2 * 3 := by
  unfold get_context_for_query
  by_cases h : (searchMedications s qe 3).isEmpty
  · rw [if_pos h]
    have hf : fallbackSentence.length ≤ sectionsHeader.length + 801 := by decide
    omega
  · rw [if_neg h]
    have hsum := assembleLoop_sum_le maxLen (searchMedications s qe 3) 0
    rw [Nat.zero_add, max_eq_right (Nat.zero_le _)] at hsum
    have hjoin := pyJoin_le "\n\n" (assembleLoop maxLen (searchMedications s qe 3) 0)
    have hlen := assembleLoop_length_le maxLen (searchMedications s qe 3) 0
    have hhits := searchMedications_length_le s qe 3 (by omega)
    have hsep : ("\n\n" : String).length = 2 := rfl
    rw [hsep] at hjoin
    omega
